import Mathlib

/-!
Verification of the basic-cli shell core (parser, command dispatch, executor)
against its design specification.

The Python sources under `src/` are shallowly embedded below:

* pure string manipulation from Python's standard library (`str.strip`,
  `str.split`, `str.splitlines`, `str.rstrip`, `shlex.split`, `re.sub` with
  the two fixed substitution regexes, `argparse` for grep's flags) is
  modelled on `List Char` / `String`, restricted to the ASCII behaviour the
  shell exercises;
* effectful pieces (the filesystem, the real process stdin, a spawned child
  process, the regex engine used by grep) are passed in explicitly as
  function parameters, so every definition stays executable;
* Python exceptions that escape a function are modelled with `Except`:
  `ExitCommandException` (the shell-termination signal), `SystemExit`
  (raised by argparse when grep's arguments are malformed), uncaught
  I/O errors, and `ValueError` (shlex tokenization errors).

Machine integers do not occur: Python integers are unbounded, so exit codes
are `Int` and sizes are `Nat`.
-/

/-! ## Python string primitives -/

/-- The characters Python's `str.strip()` and `str.split()` treat as
whitespace (ASCII fragment). -/
def pyIsSpace (c : Char) : Bool :=
  c = ' ' || c = '\t' || c = '\n' || c = '\r' || c = '\x0b' || c = '\x0c'

/-- Python `s.strip()` on the ASCII fragment: drop leading and trailing
whitespace. -/
def pyStrip (s : String) : String :=
  String.mk (((s.toList.dropWhile pyIsSpace).reverse.dropWhile pyIsSpace).reverse)

/-- Python `s.split(sep)` for a single separator character: split at every
occurrence, keeping empty pieces (so `"".split(sep) = [""]`). -/
def pySplitChar (sep : Char) : List Char → List (List Char)
  | [] => [[]]
  | c :: rest =>
    if c = sep then
      [] :: pySplitChar sep rest
    else
      match pySplitChar sep rest with
      | [] => [[c]]
      | piece :: pieces => (c :: piece) :: pieces

/-- Python `s.split()` (no separator): maximal runs of non-whitespace,
empty pieces never produced.  `acc` holds the current run, reversed. -/
def pySplitWsAux : List Char → List Char → List (List Char)
  | [], [] => []
  | [], acc => [acc.reverse]
  | c :: rest, acc =>
    if pyIsSpace c then
      match acc with
      | [] => pySplitWsAux rest []
      | _ => acc.reverse :: pySplitWsAux rest []
    else
      pySplitWsAux rest (c :: acc)

/-- Python `s.split()` with no arguments. -/
def pySplitWs (l : List Char) : List (List Char) := pySplitWsAux l []

/-- Python `s.splitlines()` restricted to `'\n'` line breaks: like splitting
on `'\n'` but an empty string gives `[]` and a trailing newline does not
produce a final empty line. -/
def pySplitlines (s : String) : List String :=
  if s.isEmpty then []
  else
    let pieces := (pySplitChar '\n' s.toList).map (fun l => String.mk l)
    if s.toList.getLast? = some '\n' then pieces.dropLast else pieces

/-- Python `s.rstrip('\n')`: remove every trailing newline character. -/
def pyRstripNl (s : String) : String :=
  String.mk ((s.toList.reverse.dropWhile (fun c => c = '\n')).reverse)

/-- Python truthiness of an `Optional[str]`: `None` and `""` are falsy. -/
def pyTruthy : Option String → Bool
  | none => false
  | some s => !s.isEmpty

/-- Python `len(s.encode('utf-8'))`. -/
def pyUtf8Len (s : String) : Nat := s.utf8ByteSize

/-! ## Exceptions

`PyExc` collects the Python exceptions that can escape the embedded
functions.  `exitCommand` is `ExitCommandException` raised by the `exit`
built-in; `systemExit` is the `SystemExit` raised by `argparse` on malformed
command lines; `ioError` stands for an uncaught `OSError` (e.g. a failing
`open`); `valueError` is raised by `shlex` on unbalanced quoting. -/

inductive PyExc where
  | exitCommand : PyExc
  | systemExit (code : Int) : PyExc
  | ioError : PyExc
  | valueError (msg : String) : PyExc
  deriving DecidableEq, Repr

/-- Equality of `Except` results is decidable when both components are. -/
instance exceptDecEq {ε α : Type} [DecidableEq ε] [DecidableEq α] :
    DecidableEq (Except ε α) := fun x y =>
  match x, y with
  | .ok a, .ok b =>
    if h : a = b then .isTrue (by rw [h])
    else .isFalse (fun hc => h (by injection hc))
  | .error a, .error b =>
    if h : a = b then .isTrue (by rw [h])
    else .isFalse (fun hc => h (by injection hc))
  | .ok _, .error _ => .isFalse (fun hc => by injection hc)
  | .error _, .ok _ => .isFalse (fun hc => by injection hc)

/-! ## External state passed in explicitly -/

/-- A file's content as text together with its `os.path.getsize` size. -/
structure FileData where
  content : String
  size : Nat
  deriving DecidableEq, Repr

/-- The readable filesystem: `none` means opening the path raises an
`OSError` (missing file, permission error, ...). -/
abbrev FS := String → Option FileData

/-! ## Commands (src/commands.py)

Each `execute` takes the stage's argument list and the optional piped
stdin; commands that can touch the filesystem or the real process stdin
take those as extra parameters.  The result is the Python pair
`(exit code, output-or-None)`. -/

/-- `EchoCommand.execute`: join the arguments with single spaces; a present
stdin is prepended verbatim. -/
def EchoCommand.execute (args : List String) (stdin : Option String) :
    Int × Option String :=
  let out := String.intercalate " " args
  match stdin with
  | some s => (0, some (s ++ out))
  | none => (0, some out)

/-- `CatCommand.execute`: with no args and piped stdin present return the
stdin; with no args and no stdin read the real process stdin; otherwise
concatenate the named files, any open error giving `(1, None)` (the
exception is caught locally). -/
def CatCommand.execute (args : List String) (stdin : Option String)
    (fs : FS) (procStdin : String) : Int × Option String :=
  match args with
  | [] =>
    match stdin with
    | some s => (0, some s)
    | none => (0, some procStdin)
  | _ =>
    match (args.map fs).mapM id with
    | none => (1, none)
    | some datas => (0, some (String.join (datas.map FileData.content)))

/-- Format `wc`'s output line from the text and the byte count. -/
def wcFormat (content : String) (bytes : Nat) : Int × Option String :=
  (0, some (toString (pySplitChar '\n' content.toList).length ++ " " ++
    toString (pySplitWs content.toList).length ++ " " ++ toString bytes))

/-- `WcCommand.execute`: with args, read the first arg as a file (byte count
from `os.path.getsize`; open errors are caught and give `(1, None)`); else
use piped stdin; else the real process stdin.  Line count is
`len(content.split('\n'))`, word count `len(content.split())`, byte count
`len(content.encode('utf-8'))` for text input. -/
def WcCommand.execute (args : List String) (stdin : Option String)
    (fs : FS) (procStdin : String) : Int × Option String :=
  match args with
  | f :: _ =>
    match fs f with
    | none => (1, none)
    | some d => wcFormat d.content d.size
  | [] =>
    match stdin with
    | some content => wcFormat content (pyUtf8Len content)
    | none => wcFormat procStdin (pyUtf8Len procStdin)

/-- `PwdCommand.execute`: report the current working directory. -/
def PwdCommand.execute (cwd : String) : Int × Option String := (0, some cwd)

/-- `ExitCommand.execute`: unconditionally raise `ExitCommandException`;
no `(exit code, output)` pair is ever returned. -/
def ExitCommand.execute (_args : List String) (_stdin : Option String) :
    Except PyExc (Int × Option String) :=
  .error .exitCommand

/-! ## Executor (src/executor.py)

A pipeline stage's resolved behavior is a function from the piped stdin to
either a raised exception or a `(exit code, output)` pair. -/

abbrev Behavior := Option String → Except PyExc (Int × Option String)

/-- A command whose `execute` cannot raise, as a `Behavior`. -/
def pureStage (f : Option String → Int × Option String) : Behavior :=
  fun stdin => .ok (f stdin)

/-- The loop body of `Executor.execute`: `code` is the running `exit_code`
(initially 0) and `prev` the running `previous_output` (initially `None`).
A raised exception propagates; a non-zero exit code breaks the loop. -/
def executeLoop : List Behavior → Int → Option String →
    Except PyExc (Int × Option String)
  | [], code, prev => .ok (code, prev)
  | b :: rest, _, prev =>
    match b prev with
    | .error e => .error e
    | .ok (c, out) => if c ≠ 0 then .ok (c, out) else executeLoop rest c out

/-- `Executor.execute`: run the loop from exit code 0 and no stdin; after
the loop, print `previous_output` when it is not `None` (the list of printed
lines is returned so printing is observable).  A raised exception skips the
print and propagates to the caller. -/
def Executor.execute (stages : List Behavior) :
    Except PyExc (Int × List String) :=
  match executeLoop stages 0 none with
  | .error e => .error e
  | .ok (code, prev) => .ok (code, prev.toList)

/-- Instrumentation: the list of `(exit code, output)` results of the stages
that ran to completion, paired with the exception that ended the pipeline
early, if any.  Mirrors the `Executor.execute` loop exactly. -/
def runTrace : List Behavior → Option String →
    List (Int × Option String) × Option PyExc
  | [], _ => ([], none)
  | b :: rest, prev =>
    match b prev with
    | .error e => ([], some e)
    | .ok (c, out) =>
      if c ≠ 0 then ([(c, out)], none)
      else
        match runTrace rest out with
        | (tr, exc) => ((c, out) :: tr, exc)

/-- Instrumentation: how many stage behaviors the executor invokes at all
(a stage that raises or fails is still counted as invoked). -/
def invokedCount : List Behavior → Option String → Nat
  | [], _ => 0
  | b :: rest, prev =>
    match b prev with
    | .error _ => 1
    | .ok (c, out) => if c ≠ 0 then 1 else 1 + invokedCount rest out

/-! ## grep (src/commands.py, GrepCommand)

`argparse` is modelled for the option forms the shell uses: `-w`/`--word`
and `-i`/`--ignore-case` as store-true flags, `-A`/`--after-context` taking
an integer value in the following token, one required positional `pattern`
and one optional positional `file`.  On any malformed command line
(unknown option, missing or non-integer `-A` value, missing pattern, spare
positionals) argparse prints usage and raises `SystemExit(2)`; it never
raises `argparse.ArgumentError` out of `parse_args`, so the
`except ValueError` in `GrepCommand.execute` can never fire.  Tokens that
look like negative numbers are treated as positionals, as argparse does
when no registered option looks like a negative number. -/

structure GrepArgs where
  word : Bool
  ignoreCase : Bool
  afterContext : Int
  pattern : String
  file : Option String
  deriving DecidableEq, Repr

/-- Does Python's `int(tok)` succeed, i.e. is `tok` an optionally signed
decimal numeral? -/
def pyIsInt (tok : String) : Bool :=
  match tok.toList with
  | '-' :: d :: ds => (d :: ds).all Char.isDigit
  | '+' :: d :: ds => (d :: ds).all Char.isDigit
  | d :: ds => (d :: ds).all Char.isDigit
  | [] => false

/-- Python `int(tok)` on a token accepted by `pyIsInt`. -/
def pyToInt (tok : String) : Int :=
  match tok.toList with
  | '-' :: ds => -(String.mk ds).toNat!
  | '+' :: ds => (String.mk ds).toNat!
  | _ => tok.toNat!

/-- Is the token an option for argparse (starts with `-`, is not `-` alone,
and does not look like a negative number)? -/
def grepIsOption (tok : String) : Bool :=
  match tok.toList with
  | '-' :: c :: _ => !(c :: (tok.toList.drop 2)).all Char.isDigit || c = '-'
  | _ => false

/-- One pass of argparse over grep's argument list.  `pat`/`file` hold the
positionals consumed so far. -/
def grepParseArgsAux : List String → Bool → Bool → Int →
    Option String → Option String → Except PyExc GrepArgs
  | [], w, i, a, pat, file =>
    match pat with
    | none => .error (.systemExit 2)
    | some p => .ok ⟨w, i, a, p, file⟩
  | tok :: rest, w, i, a, pat, file =>
    if tok = "-w" || tok = "--word" then
      grepParseArgsAux rest true i a pat file
    else if tok = "-i" || tok = "--ignore-case" then
      grepParseArgsAux rest w true a pat file
    else if tok = "-A" || tok = "--after-context" then
      match rest with
      | [] => .error (.systemExit 2)
      | v :: rest' =>
        if pyIsInt v then grepParseArgsAux rest' w i (pyToInt v) pat file
        else .error (.systemExit 2)
    else if grepIsOption tok then .error (.systemExit 2)
    else
      match pat, file with
      | none, _ => grepParseArgsAux rest w i a (some tok) file
      | some _, none => grepParseArgsAux rest w i a pat (some tok)
      | some _, some _ => .error (.systemExit 2)

/-- `GrepCommand._parse_args` via argparse: defaults are flags off,
after-context 0, no file. -/
def grepParseArgs (args : List String) : Except PyExc GrepArgs :=
  grepParseArgsAux args false false 0 none none

/-- `GrepCommand._read_input`: re-parse the arguments; read the named file
when a file positional is present (an open error propagates — this call is
not inside a try block); otherwise use the piped stdin when it is *truthy*
(present and non-empty — `elif stdin:`); otherwise read the real process
stdin.  The text is split with `str.splitlines()`. -/
def GrepCommand.readInput (args : List String) (stdin : Option String)
    (fs : FS) (procStdin : String) : Except PyExc (List String) :=
  match grepParseArgs args with
  | .error e => .error e
  | .ok a =>
    match a.file with
    | some f =>
      match fs f with
      | none => .error .ioError
      | some d => .ok (pySplitlines d.content)
    | none =>
      if pyTruthy stdin then .ok (pySplitlines (stdin.getD ""))
      else .ok (pySplitlines procStdin)

/-- The loop of `GrepCommand._process_lines`: `m` is the compiled pattern's
`search` test, `a` the after-context, `r` the `remaining_context` counter.
A matching line is emitted and resets the counter to `a`; otherwise a line
is emitted while the counter is positive. -/
def grepProcessAux (m : String → Bool) (a : Int) :
    List String → Int → List String
  | [], _ => []
  | l :: rest, r =>
    if m l then l :: grepProcessAux m a rest a
    else if r > 0 then l :: grepProcessAux m a rest (r - 1)
    else grepProcessAux m a rest r

/-- `GrepCommand._process_lines` starts with `remaining_context = 0`. -/
def GrepCommand.processLines (m : String → Bool) (afterContext : Int)
    (lines : List String) : List String :=
  grepProcessAux m afterContext lines 0

/-- The final step of `GrepCommand.execute`:
`'\n'.join(result) if result else None`. -/
def GrepCommand.outputOf (result : List String) : Option String :=
  if result.isEmpty then none else some (String.intercalate "\n" result)

/-- `GrepCommand.execute`.  The regex engine is abstracted by `search`,
which turns the parsed flags and pattern (`_build_pattern`) into the
compiled pattern's per-line `search` test.  A `SystemExit` from argparse
propagates: the `except ValueError` handler matches only `ValueError`,
which `parse_args` never raises, so the handler is dead code (kept here for
faithfulness). -/
def GrepCommand.execute (search : GrepArgs → String → Bool)
    (args : List String) (stdin : Option String) (fs : FS)
    (procStdin : String) : Except PyExc (Int × Option String) :=
  match grepParseArgs args with
  | .error (.valueError _) => .ok (1, none)
  | .error e => .error e
  | .ok a =>
    match GrepCommand.readInput args stdin fs procStdin with
    | .error e => .error e
    | .ok lines =>
      .ok (0, GrepCommand.outputOf
        (GrepCommand.processLines (search a) a.afterContext lines))

/-! ## External-process fallback (src/commands.py, DefaultCommand) -/

/-- The captured result of the spawned child process: its exit code and its
stdout and stderr streams already decoded from UTF-8 bytes. -/
structure ChildResult where
  returncode : Int
  stdout : String
  stderr : String
  deriving DecidableEq, Repr

/-- What `DefaultCommand.execute` produces: the returned pair plus the
lines it printed on the shell's diagnostic stream. -/
structure DefaultOutcome where
  exitCode : Int
  output : Option String
  diag : List String
  deriving DecidableEq, Repr

/-- `DefaultCommand.execute`: `child` is the outcome of `subprocess.run`
(`none` when the program cannot be found, raising `FileNotFoundError`,
which is caught locally).  Both captured streams are normalized with
`.rstrip('\n')`; a non-empty normalized stderr is forwarded to the
diagnostic stream; the child's exit code and normalized stdout are
returned. -/
def DefaultCommand.execute (name : String) (child : Option ChildResult) :
    DefaultOutcome :=
  match child with
  | none => ⟨1, none, [name ++ ": command not found"]⟩
  | some res =>
    let out := pyRstripNl res.stdout
    let err := pyRstripNl res.stderr
    ⟨res.returncode, some out, if err.isEmpty then [] else [err]⟩

/-- Modelled from the spec: the normalization the specification describes
for the external-process fallback — remove exactly one trailing newline
(`captures ... and strips a single trailing newline from each`).  Compared
against the source's `pyRstripNl`. -/
def specStripOneNl (s : String) : String :=
  if s.toList.getLast? = some '\n' then String.mk s.toList.dropLast else s

/-! ## Environment-variable substitution (src/parser.py) -/

/-- The process environment: `none` is an unset variable. -/
abbrev Env := String → Option String

/-- Python `os.getenv(name, '')`. -/
def getenvDef (env : Env) (name : String) : String := (env name).getD ""

/-- ASCII fragment of the regex class `\w`. -/
def pyIsWordChar (c : Char) : Bool := c.isAlphanum || c = '_'

/-- Scanner state for the `\$\{(\w+)\}` pass: nothing pending, a pending
`$`, or a pending `${` followed by the word characters read so far
(reversed). -/
inductive BrState where
  | plain : BrState
  | dollar : BrState
  | word (wrev : List Char) : BrState

/-- First substitution pass, `re.sub` with pattern `\$\{(\w+)\}`, as a
left-to-right scan: at `${NAME}` (NAME a non-empty word) insert the
variable's value (unset gives `""`) and continue scanning *after* the
match, never inside the inserted value; where no match starts, the scanned
characters are kept and scanning moves on. -/
def subBracedAux (env : Env) : List Char → BrState → List Char
  | [], .plain => []
  | [], .dollar => ['$']
  | [], .word wrev => '$' :: '{' :: wrev.reverse
  | c :: rest, .plain =>
    if c = '$' then subBracedAux env rest .dollar
    else c :: subBracedAux env rest .plain
  | c :: rest, .dollar =>
    if c = '{' then subBracedAux env rest (.word [])
    else if c = '$' then '$' :: subBracedAux env rest .dollar
    else '$' :: c :: subBracedAux env rest .plain
  | c :: rest, .word wrev =>
    if pyIsWordChar c then subBracedAux env rest (.word (c :: wrev))
    else if c = '}' && !wrev.isEmpty then
      (getenvDef env (String.mk wrev.reverse)).toList ++ subBracedAux env rest .plain
    else if c = '$' then
      '$' :: '{' :: wrev.reverse ++ subBracedAux env rest .dollar
    else
      '$' :: '{' :: wrev.reverse ++ c :: subBracedAux env rest .plain

/-- The braced pass on a whole line. -/
def subBraced (env : Env) (l : List Char) : List Char :=
  subBracedAux env l .plain

/-- Scanner state for the `\$(\w+)` pass: nothing pending, or a pending `$`
with the word characters read so far (reversed). -/
inductive DlState where
  | plain : DlState
  | word (wrev : List Char) : DlState

/-- Second substitution pass, `re.sub` with pattern `\$(\w+)`: at `$NAME`
insert the variable's value and continue after the match; the inserted
value is never re-scanned. -/
def subDollarAux (env : Env) : List Char → DlState → List Char
  | [], .plain => []
  | [], .word wrev =>
    if wrev.isEmpty then ['$'] else (getenvDef env (String.mk wrev.reverse)).toList
  | c :: rest, .plain =>
    if c = '$' then subDollarAux env rest (.word [])
    else c :: subDollarAux env rest .plain
  | c :: rest, .word wrev =>
    if pyIsWordChar c then subDollarAux env rest (.word (c :: wrev))
    else
      (if wrev.isEmpty then ['$'] else (getenvDef env (String.mk wrev.reverse)).toList) ++
        (if c = '$' then subDollarAux env rest (.word [])
         else c :: subDollarAux env rest .plain)

/-- The unbraced pass on a whole line. -/
def subDollar (env : Env) (l : List Char) : List Char :=
  subDollarAux env l .plain

/-- `Parser._process_substitutions`: the braced pass over the whole line,
then the unbraced pass over that pass's output. -/
def processSubstitutions (env : Env) (s : String) : String :=
  String.mk (subDollar env (subBraced env s.toList))

/-! ## shlex.split (used by Parser._parse_command)

POSIX-mode `shlex.split`: whitespace separates tokens; `'...'` is literal
up to the closing quote; inside `"..."` a backslash escapes only `"` and
`\`; outside quotes a backslash escapes any single character; quote
characters are stripped but make the (possibly empty) token real.  An
unterminated quote raises `ValueError("No closing quotation")`, a trailing
escape raises `ValueError("No escaped character")`.  The scanner state is
the mode (0 normal, 1 single-quoted, 2 double-quoted) together with the
current token (`none` when no token has started, the accumulated
characters reversed otherwise). -/

def shlexGo : List Char → Nat → Option (List Char) → Except PyExc (List String)
  | [], 0, none => .ok []
  | [], 0, some acc => .ok [String.mk acc.reverse]
  | [], _ + 1, _ => .error (.valueError "No closing quotation")
  | c :: rest, 1, acc =>
    if c = '\'' then shlexGo rest 0 (some (acc.getD []))
    else shlexGo rest 1 (some (c :: acc.getD []))
  | c :: rest, 2, acc =>
    if c = '"' then shlexGo rest 0 (some (acc.getD []))
    else if c = '\\' then
      match rest with
      | [] => .error (.valueError "No closing quotation")
      | e :: rest' =>
        if e = '"' || e = '\\' then shlexGo rest' 2 (some (e :: acc.getD []))
        else shlexGo rest' 2 (some (e :: '\\' :: acc.getD []))
    else shlexGo rest 2 (some (c :: acc.getD []))
  | c :: rest, _, acc =>
    if pyIsSpace c then
      match acc with
      | none => shlexGo rest 0 none
      | some a =>
        match shlexGo rest 0 none with
        | .error e => .error e
        | .ok toks => .ok (String.mk a.reverse :: toks)
    else if c = '\'' then shlexGo rest 1 (some (acc.getD []))
    else if c = '"' then shlexGo rest 2 (some (acc.getD []))
    else if c = '\\' then
      match rest with
      | [] => .error (.valueError "No escaped character")
      | e :: rest' => shlexGo rest' 0 (some (e :: acc.getD []))
    else shlexGo rest 0 (some (c :: acc.getD []))

/-- `shlex.split(s)` in POSIX mode. -/
def shlexSplit (s : String) : Except PyExc (List String) :=
  shlexGo s.toList 0 none

/-! ## Parser (src/parser.py) -/

/-- A parsed pipeline stage: command name and arguments. -/
structure ParsedCommand where
  command_name : String
  args : List String
  deriving DecidableEq, Repr

/-- A parsed input line: the list of pipeline stages. -/
structure ParsedInput where
  commands : List ParsedCommand
  deriving DecidableEq, Repr

/-- `Parser._parse_command`: tokenize one segment with `shlex.split`; no
tokens raises `ParseError("Empty command")` (modelled as `valueError` so a
single error type covers both Python exception classes — the message
distinguishes them); the first token is the command name. -/
def parseCommand (s : String) : Except PyExc ParsedCommand :=
  match shlexSplit s with
  | .error e => .error e
  | .ok [] => .error (.valueError "ParseError: Empty command")
  | .ok (name :: args) => .ok ⟨name, args⟩

/-- The loop of `Parser.parse` over the `'|'`-separated segments: strip
each segment and silently skip the ones that become empty. -/
def parseSegments : List String → Except PyExc (List ParsedCommand)
  | [] => .ok []
  | seg :: rest =>
    let t := pyStrip seg
    if t.isEmpty then parseSegments rest
    else
      match parseCommand t with
      | .error e => .error e
      | .ok cmd =>
        match parseSegments rest with
        | .error e => .error e
        | .ok cmds => .ok (cmd :: cmds)

/-- `Parser.parse`: raise `ParseError("Empty input")` when the raw line
strips to nothing; otherwise substitute variables, split the substituted
line on `'|'`, and parse the surviving segments. -/
def Parser.parse (env : Env) (raw : String) : Except PyExc ParsedInput :=
  if (pyStrip raw).isEmpty then .error (.valueError "ParseError: Empty input")
  else
    let sub := processSubstitutions env raw
    match parseSegments ((pySplitChar '|' sub.toList).map (fun l => String.mk l)) with
    | .error e => .error e
    | .ok cmds => .ok ⟨cmds⟩

/-! ## Specification-side definitions

Index-based reformulations used to state the claims, deliberately different
in shape from the scanners above. -/

/-- Emission condition the specification describes for grep with
after-context `a`: line `i` is emitted iff it matches, or some earlier line
`j` matches with `i - j ≤ a` (the *reset* counter semantics: only the
distance to the most recent match matters, and a closer match can only make
the condition easier, so the existential form is exactly reset, not
additive accumulation). -/
def grepEmit (m : String → Bool) (a : Nat) (lines : List String) (i : Nat) : Bool :=
  m (lines.getD i "") ||
    (List.range i).any (fun j => m (lines.getD j "") && decide (i - j ≤ a))

/-- Generalized emission condition for a scan that starts with
`remaining_context = r`: additionally the first `r` lines are emitted as
long as no match has occurred before them. -/
def grepEmitAux (m : String → Bool) (a r : Nat) (lines : List String) (i : Nat) : Bool :=
  grepEmit m a lines i ||
    (decide (i < r) && (List.range i).all (fun j => !m (lines.getD j "")))

/-- Does a maximal run of non-whitespace start at index `i`, where `inRun`
says whether the character just before the list was non-whitespace? -/
def runStartFrom (inRun : Bool) (l : List Char) (i : Nat) : Bool :=
  !pyIsSpace (l.getD i ' ') &&
    (if i = 0 then !inRun else pyIsSpace (l.getD (i - 1) ' '))

/-- Number of maximal non-whitespace runs starting inside `l`. -/
def runStarts (inRun : Bool) (l : List Char) : Nat :=
  ((List.range l.length).filter (runStartFrom inRun l)).length

/-- The number of maximal runs of non-whitespace characters in `l`. -/
def maxRuns (l : List Char) : Nat := runStarts false l

/-! ## Concrete fixtures used by witnesses and counterexamples -/

/-- The empty environment: every variable unset. -/
def envNone : Env := fun _ => none

/-- Environment with `A = "$B"`, `B = "x"`, `C = "${B}"`. -/
def envAB : Env := fun n =>
  if n = "A" then some "$B"
  else if n = "B" then some "x"
  else if n = "C" then some "${B}"
  else none

/-- A three-stage pipeline whose middle stage fails with exit code 2. -/
def c1Stages : List Behavior :=
  [pureStage (fun _ => (0, some "a")),
   pureStage (fun _ => (2, some "x")),
   pureStage (fun _ => (0, some "y"))]

/-- A successful stage producing `"s"`. -/
def okStageS : Behavior := pureStage (fun _ => (0, some "s"))

/-- A successful stage producing `"t"`. -/
def okStageT : Behavior := pureStage (fun _ => (0, some "t"))

/-- A filesystem on which every open fails. -/
def fsEmpty : FS := fun _ => none

/-- A filesystem where every path holds `line1\nline2\nline3` (17 bytes). -/
def fsLines : FS := fun _ => some ⟨"line1\nline2\nline3", 17⟩

/-! ## Helper lemmas -/

theorem rangeFilterMapSucc {α : Type} (p : Nat → Bool) (f : Nat → α) (n : Nat) :
    ((List.range (n + 1)).filter p).map f =
      (if p 0 then [f 0] else []) ++
        (((List.range n).filter (fun i => p (i + 1))).map (fun i => f (i + 1))) := by
  rw [List.range_succ_eq_map, List.filter_cons]
  by_cases h : p 0 <;>
    simp [h, List.filter_map, List.map_map, Function.comp_def, Nat.succ_eq_add_one]

theorem rangeFilterLenSucc (p : Nat → Bool) (n : Nat) :
    ((List.range (n + 1)).filter p).length =
      (if p 0 then 1 else 0) + ((List.range n).filter (fun i => p (i + 1))).length := by
  rw [List.range_succ_eq_map, List.filter_cons]
  by_cases h : p 0 <;>
    simp [h, List.filter_map, Function.comp_def, Nat.succ_eq_add_one, Nat.add_comm]

theorem rangeAnySucc (f : Nat → Bool) (n : Nat) :
    (List.range (n + 1)).any f = (f 0 || (List.range n).any (fun i => f (i + 1))) := by
  rw [List.range_succ_eq_map]
  simp [List.any_map, Function.comp_def, Nat.succ_eq_add_one]

theorem rangeAllSucc (f : Nat → Bool) (n : Nat) :
    (List.range (n + 1)).all f = (f 0 && (List.range n).all (fun i => f (i + 1))) := by
  rw [List.range_succ_eq_map]
  simp [List.all_map, Function.comp_def, Nat.succ_eq_add_one]

theorem pyRstripNl_getLast (s : String) :
    (pyRstripNl s).toList.getLast? ≠ some '\n' := by
  show ((s.toList.reverse.dropWhile (fun c => c = '\n')).reverse).getLast? ≠ some '\n'
  rw [List.getLast?_reverse]
  intro h
  have hne : s.toList.reverse.dropWhile (fun c => c = '\n') ≠ [] := by
    intro hnil; rw [hnil] at h; exact Option.noConfusion h
  have hhead := List.head_dropWhile_not (fun c => c = '\n') s.toList.reverse hne
  rw [List.head?_eq_head hne] at h
  rw [Option.some_inj.mp h] at hhead
  simp at hhead

theorem pyRstripNl_append (s : String) :
    ∃ k, s.toList = (pyRstripNl s).toList ++ List.replicate k '\n' := by
  refine ⟨(s.toList.reverse.takeWhile (fun c => c = '\n')).length, ?_⟩
  show s.toList = (s.toList.reverse.dropWhile (fun c => c = '\n')).reverse ++ _
  have hsplit := List.takeWhile_append_dropWhile (p := fun c => c = '\n') (l := s.toList.reverse)
  have htake : (s.toList.reverse.takeWhile (fun c => c = '\n')).reverse =
      List.replicate (s.toList.reverse.takeWhile (fun c => c = '\n')).length '\n' := by
    rw [List.eq_replicate_iff]
    refine ⟨by simp, ?_⟩
    intro b hb
    rw [List.mem_reverse] at hb
    have := List.mem_takeWhile_imp hb
    simpa using this
  calc s.toList = s.toList.reverse.reverse := by rw [List.reverse_reverse]
    _ = (s.toList.reverse.takeWhile (fun c => c = '\n') ++
          s.toList.reverse.dropWhile (fun c => c = '\n')).reverse := by rw [hsplit]
    _ = (s.toList.reverse.dropWhile (fun c => c = '\n')).reverse ++
          (s.toList.reverse.takeWhile (fun c => c = '\n')).reverse := by
            rw [List.reverse_append]
    _ = _ := by rw [htake]

theorem getLastD_irrel {α : Type} (l : List α) (d₁ d₂ : α) (h : l ≠ []) :
    l.getLast?.getD d₁ = l.getLast?.getD d₂ := by
  cases hl : l.getLast? with
  | none => rw [List.getLast?_eq_none_iff] at hl; exact absurd hl h
  | some a => rfl

theorem executeLoop_of_trace_ok (stages : List Behavior) :
    ∀ (c0 : Int) (prev : Option String) (tr : List (Int × Option String)),
      runTrace stages prev = (tr, none) →
      executeLoop stages c0 prev = .ok (tr.getLast?.getD (c0, prev)) := by
  induction stages with
  | nil =>
    intro c0 prev tr h
    simp [runTrace] at h
    subst h
    simp [executeLoop]
  | cons b rest ih =>
    intro c0 prev tr h
    cases hb : b prev with
    | error e => simp [runTrace, hb] at h
    | ok co =>
      obtain ⟨c, out⟩ := co
      by_cases hc : c = 0
      · subst hc
        simp [runTrace, hb] at h
        cases hr : runTrace rest out with
        | mk tr' exc =>
          rw [hr] at h
          obtain ⟨h1, h2⟩ := h
          subst h1
          subst h2
          have hloop := ih 0 out tr' hr
          simp [executeLoop, hb, hloop]
          cases tr' with
          | nil => simp
          | cons x xs =>
            rw [List.getLast?_cons_cons]
            exact getLastD_irrel (x :: xs) (0, out) (c0, prev) (by simp)
      · simp [runTrace, hb, hc] at h
        subst h
        simp [executeLoop, hb, hc]

theorem executeLoop_of_trace_err (stages : List Behavior) :
    ∀ (c0 : Int) (prev : Option String) (tr : List (Int × Option String)) (e : PyExc),
      runTrace stages prev = (tr, some e) →
      executeLoop stages c0 prev = .error e := by
  induction stages with
  | nil => intro c0 prev tr e h; simp [runTrace] at h
  | cons b rest ih =>
    intro c0 prev tr e h
    cases hb : b prev with
    | error e' =>
      simp [runTrace, hb] at h
      simp [executeLoop, hb, h.2]
    | ok co =>
      obtain ⟨c, out⟩ := co
      by_cases hc : c = 0
      · subst hc
        simp [runTrace, hb] at h
        cases hr : runTrace rest out with
        | mk tr' exc =>
          rw [hr] at h
          obtain ⟨-, h2⟩ := h
          subst h2
          simp [executeLoop, hb]
          exact ih 0 out tr' e hr
      · simp [runTrace, hb, hc] at h

theorem runTrace_len_le (stages : List Behavior) :
    ∀ (prev : Option String) (tr : List (Int × Option String)) (exc : Option PyExc),
      runTrace stages prev = (tr, exc) → tr.length ≤ stages.length := by
  induction stages with
  | nil =>
    intro prev tr exc h
    simp [runTrace] at h
    simp [h.1]
  | cons b rest ih =>
    intro prev tr exc h
    cases hb : b prev with
    | error e =>
      simp [runTrace, hb] at h
      simp [h.1]
    | ok co =>
      obtain ⟨c, out⟩ := co
      by_cases hc : c = 0
      · subst hc
        simp [runTrace, hb] at h
        cases hr : runTrace rest out with
        | mk tr' exc' =>
          rw [hr] at h
          have := ih out tr' exc' hr
          rw [← h.1]
          simp
          omega
      · simp [runTrace, hb, hc] at h
        rw [← h.1]
        simp

theorem invokedCount_of_trace (stages : List Behavior) :
    ∀ (prev : Option String) (tr : List (Int × Option String)),
      runTrace stages prev = (tr, none) →
      invokedCount stages prev = tr.length := by
  induction stages with
  | nil =>
    intro prev tr h
    simp [runTrace] at h
    simp [invokedCount, h]
  | cons b rest ih =>
    intro prev tr h
    cases hb : b prev with
    | error e => simp [runTrace, hb] at h
    | ok co =>
      obtain ⟨c, out⟩ := co
      by_cases hc : c = 0
      · subst hc
        simp [runTrace, hb] at h
        cases hr : runTrace rest out with
        | mk tr' exc' =>
          rw [hr] at h
          have h1 : (0, out) :: tr' = tr := h.1
          have h2 : exc' = none := h.2
          subst h2
          have hlen := ih out tr' hr
          rw [← h1]
          simp [invokedCount, hb, hlen]
          omega
      · simp [runTrace, hb, hc] at h
        rw [← h]
        simp [invokedCount, hb, hc]

theorem runTrace_dropLast_zero (stages : List Behavior) :
    ∀ (prev : Option String) (tr : List (Int × Option String)) (exc : Option PyExc),
      runTrace stages prev = (tr, exc) →
      ∀ r ∈ tr.dropLast, r.1 = 0 := by
  induction stages with
  | nil =>
    intro prev tr exc h r hr
    simp [runTrace] at h
    rw [h.1] at hr
    simp at hr
  | cons b rest ih =>
    intro prev tr exc h r hr
    cases hb : b prev with
    | error e =>
      simp [runTrace, hb] at h
      rw [h.1] at hr
      simp at hr
    | ok co =>
      obtain ⟨c, out⟩ := co
      by_cases hc : c = 0
      · subst hc
        simp [runTrace, hb] at h
        cases hrt : runTrace rest out with
        | mk tr' exc' =>
          rw [hrt] at h
          have h1 : (0, out) :: tr' = tr := h.1
          rw [← h1] at hr
          cases htr' : tr' with
          | nil =>
            rw [htr'] at hr
            simp at hr
          | cons x xs =>
            subst htr'
            rw [List.dropLast_cons_of_ne_nil (by simp)] at hr
            rcases List.mem_cons.mp hr with hr0 | hr1
            · rw [hr0]
            · exact ih out (x :: xs) exc' hrt r hr1
      · simp [runTrace, hb, hc] at h
        rw [← h.1] at hr
        simp at hr

theorem runTrace_early_stop (stages : List Behavior) :
    ∀ (prev : Option String) (tr : List (Int × Option String)),
      runTrace stages prev = (tr, none) →
      tr.length < stages.length →
      ∃ r, tr.getLast? = some r ∧ r.1 ≠ 0 := by
  induction stages with
  | nil =>
    intro prev tr h hlt
    simp [runTrace] at h
    rw [h] at hlt
    simp at hlt
  | cons b rest ih =>
    intro prev tr h hlt
    cases hb : b prev with
    | error e => simp [runTrace, hb] at h
    | ok co =>
      obtain ⟨c, out⟩ := co
      by_cases hc : c = 0
      · subst hc
        simp [runTrace, hb] at h
        cases hr : runTrace rest out with
        | mk tr' exc' =>
          rw [hr] at h
          have h1 : (0, out) :: tr' = tr := h.1
          have h2 : exc' = none := h.2
          subst h2
          rw [← h1] at hlt
          simp only [List.length_cons, List.length_cons] at hlt
          have hlt' : tr'.length < rest.length := by omega
          obtain ⟨r, hr1, hr2⟩ := ih out tr' hr hlt'
          refine ⟨r, ?_, hr2⟩
          rw [← h1]
          cases htr' : tr' with
          | nil => rw [htr'] at hr1; simp at hr1
          | cons x xs =>
            subst htr'
            rw [List.getLast?_cons_cons]
            exact hr1
      · simp [runTrace, hb, hc] at h
        rw [← h]
        exact ⟨(c, out), by simp, hc⟩

theorem grepProcessAux_sublist (m : String → Bool) (a : Int) :
    ∀ (ls : List String) (r : Int), List.Sublist (grepProcessAux m a ls r) ls := by
  intro ls
  induction ls with
  | nil => intro r; simp [grepProcessAux]
  | cons l rest ih =>
    intro r
    rw [grepProcessAux]
    by_cases h1 : m l
    · rw [if_pos h1]
      exact List.Sublist.cons₂ l (ih a)
    · rw [if_neg h1]
      by_cases h2 : r > 0
      · rw [if_pos h2]
        exact List.Sublist.cons₂ l (ih (r - 1))
      · rw [if_neg h2]
        exact List.Sublist.cons l (ih r)

theorem runStartFrom_head (b : Bool) (c : Char) (rest : List Char) :
    runStartFrom b (c :: rest) 0 = (!pyIsSpace c && !b) := by
  simp [runStartFrom]

theorem runStartFrom_shift (b : Bool) (c : Char) (rest : List Char) (i : Nat) :
    runStartFrom b (c :: rest) (i + 1) = runStartFrom (!pyIsSpace c) rest i := by
  cases i with
  | zero => simp [runStartFrom]
  | succ j => simp [runStartFrom]

theorem runStarts_cons (b : Bool) (c : Char) (rest : List Char) :
    runStarts b (c :: rest) =
      (if !pyIsSpace c && !b then 1 else 0) + runStarts (!pyIsSpace c) rest := by
  unfold runStarts
  rw [show (c :: rest).length = rest.length + 1 from rfl, rangeFilterLenSucc]
  rw [runStartFrom_head]
  congr 1
  apply congrArg List.length
  apply List.filter_congr
  intro i _
  exact runStartFrom_shift b c rest i

theorem pySplitWsAux_length (l : List Char) :
    ∀ acc : List Char,
      (pySplitWsAux l acc).length =
        (if acc.isEmpty then 0 else 1) + runStarts (!acc.isEmpty) l := by
  induction l with
  | nil =>
    intro acc
    cases acc <;> simp [pySplitWsAux, runStarts]
  | cons c rest ih =>
    intro acc
    cases acc with
    | nil =>
      by_cases hc : pyIsSpace c
      · simp only [pySplitWsAux, hc, if_true]
        rw [ih []]
        simp [runStarts_cons, hc]
      · simp only [pySplitWsAux, hc, Bool.false_eq_true, if_false]
        rw [ih [c]]
        simp [runStarts_cons, hc]
    | cons a as =>
      by_cases hc : pyIsSpace c
      · simp only [pySplitWsAux, hc, if_true]
        rw [List.length_cons, ih []]
        simp [runStarts_cons, hc]
        omega
      · simp only [pySplitWsAux, hc, Bool.false_eq_true, if_false]
        rw [ih (c :: a :: as)]
        simp [runStarts_cons, hc]

theorem pySplitWs_length_eq_maxRuns (l : List Char) :
    (pySplitWs l).length = maxRuns l := by
  have h := pySplitWsAux_length l []
  simpa [pySplitWs, maxRuns] using h

theorem grepEmitAux_zero (m : String → Bool) (a : Nat) (lines : List String) (i : Nat) :
    grepEmitAux m a 0 lines i = grepEmit m a lines i := by
  simp [grepEmitAux]

theorem grepEmitAux_head (m : String → Bool) (a r : Nat) (l : String) (rest : List String) :
    grepEmitAux m a r (l :: rest) 0 = (m l || decide (0 < r)) := by
  simp [grepEmitAux, grepEmit]

theorem grepEmitAux_shift (m : String → Bool) (a r : Nat) (l : String)
    (rest : List String) (i : Nat) :
    grepEmitAux m a r (l :: rest) (i + 1) =
      grepEmitAux m a (if m l then a else r - 1) rest i := by
  by_cases hl : m l
  · rw [if_pos hl, Bool.eq_iff_iff]
    simp only [grepEmitAux, grepEmit, hl, rangeAnySucc, rangeAllSucc,
      List.getD_cons_succ, List.getD_cons_zero, Nat.sub_zero, Nat.succ_sub_succ,
      Bool.not_true, Bool.true_and, Bool.false_and, Bool.and_false, Bool.or_false,
      Bool.or_eq_true, Bool.and_eq_true, List.any_eq_true, List.all_eq_true,
      List.mem_range, decide_eq_true_eq, Bool.not_eq_true']
    constructor
    · rintro (h | h | h)
      · exact Or.inl (Or.inl h)
      · by_cases hex : ∃ x, x < i ∧ m (rest.getD x "") = true
        · obtain ⟨j, hj, hmj⟩ := hex
          exact Or.inl (Or.inr ⟨j, hj, hmj, by omega⟩)
        · push_neg at hex
          refine Or.inr ⟨by omega, fun j hj => ?_⟩
          exact Bool.eq_false_iff.mpr (hex j hj)
      · exact Or.inl (Or.inr h)
    · rintro ((h | h) | ⟨h1, -⟩)
      · exact Or.inl h
      · exact Or.inr (Or.inr h)
      · exact Or.inr (Or.inl (by omega))
  · rw [if_neg hl, Bool.eq_iff_iff]
    simp only [grepEmitAux, grepEmit, hl, rangeAnySucc, rangeAllSucc,
      List.getD_cons_succ, List.getD_cons_zero, Nat.sub_zero, Nat.succ_sub_succ,
      Bool.not_false, Bool.true_and, Bool.false_and, Bool.and_false, Bool.or_false,
      Bool.false_or, Bool.or_eq_true, Bool.and_eq_true, List.any_eq_true,
      List.all_eq_true, List.mem_range, decide_eq_true_eq, Bool.not_eq_true']
    constructor
    · rintro ((h | h) | ⟨h1, h2⟩)
      · exact Or.inl (Or.inl h)
      · exact Or.inl (Or.inr h)
      · exact Or.inr ⟨by omega, h2⟩
    · rintro ((h | h) | ⟨h1, h2⟩)
      · exact Or.inl (Or.inl h)
      · exact Or.inl (Or.inr h)
      · exact Or.inr ⟨by omega, h2⟩

theorem grepProcessAux_spec (m : String → Bool) (a : Nat) :
    ∀ (ls : List String) (r : Nat),
      grepProcessAux m (a : Int) ls (r : Int) =
        ((List.range ls.length).filter (grepEmitAux m a r ls)).map
          (fun i => ls.getD i "") := by
  intro ls
  induction ls with
  | nil => intro r; simp [grepProcessAux]
  | cons l rest ih =>
    intro r
    rw [show (l :: rest).length = rest.length + 1 from rfl, rangeFilterMapSucc]
    have hshift : (fun i => grepEmitAux m a r (l :: rest) (i + 1)) =
        grepEmitAux m a (if m l then a else r - 1) rest :=
      funext fun i => grepEmitAux_shift m a r l rest i
    rw [hshift]
    have hmap : (fun i => (l :: rest).getD (i + 1) "") = (fun i => rest.getD i "") := by
      funext i
      simp
    rw [hmap, grepEmitAux_head, grepProcessAux]
    by_cases hl : m l
    · rw [if_pos hl, if_pos hl, ih a]
      simp [hl]
    · rw [if_neg hl, if_neg hl]
      by_cases hr : (r : Int) > 0
      · rw [if_pos hr]
        have hrn : 0 < r := by exact_mod_cast hr
        have hcast : (r : Int) - 1 = ((r - 1 : Nat) : Int) := by omega
        rw [hcast, ih (r - 1)]
        simp [hl, hrn]
      · rw [if_neg hr]
        have hrn : r = 0 := by omega
        subst hrn
        rw [ih 0]
        simp [hl]

theorem pySplitChar_ne_nil (sep : Char) (l : List Char) :
    pySplitChar sep l ≠ [] := by
  cases l with
  | nil => simp [pySplitChar]
  | cons c rest =>
    rw [pySplitChar]
    by_cases h : c = sep
    · simp [h]
    · rw [if_neg h]
      cases hr : pySplitChar sep rest <;> simp

theorem pySplitChar_snoc_sep (sep : Char) (l : List Char) :
    (pySplitChar sep (l ++ [sep])).length = (pySplitChar sep l).length + 1 := by
  induction l with
  | nil => simp [pySplitChar]
  | cons c rest ih =>
    rw [List.cons_append, pySplitChar, pySplitChar]
    by_cases h : c = sep
    · rw [if_pos h, if_pos h]
      simp [ih]
    · rw [if_neg h, if_neg h]
      cases hr : pySplitChar sep (rest ++ [sep]) with
      | nil => exact absurd hr (pySplitChar_ne_nil sep _)
      | cons p ps =>
        cases hr2 : pySplitChar sep rest with
        | nil => exact absurd hr2 (pySplitChar_ne_nil sep _)
        | cons q qs =>
          have hlen := ih
          rw [hr, hr2] at hlen
          simp at hlen ⊢
          omega

/-! ## Claim theorems -/

/-- C1: for every pipeline whose stage behaviors all return `(exitCode,
output)` results (no raised termination signal, hypothesis `h`), the
executor iterates stages in order threading each output into the next
stdin (initially none, final two conjuncts), executes only a prefix of the
stages, stopping exactly when a stage returns a non-zero exit code (so no
later stage is ever invoked), prints the last recorded output exactly once
when it is not none, and returns the last executed stage's exit code. -/
theorem executor_c1_pipeline_spec (stages : List Behavior)
    (tr : List (Int × Option String)) (h : runTrace stages none = (tr, none)) :
    Executor.execute stages =
        .ok ((tr.getLast?.map Prod.fst).getD 0, (tr.getLast?.bind Prod.snd).toList)
      ∧ invokedCount stages none = tr.length
      ∧ tr.length ≤ stages.length
      ∧ (∀ p ∈ tr.dropLast, p.1 = 0)
      ∧ (tr.length < stages.length → ∃ p, tr.getLast? = some p ∧ p.1 ≠ 0)
      ∧ (∀ (b : Behavior) (rest : List Behavior) (prev : Option String)
          (c : Int) (out : Option String), b prev = .ok (c, out) → c ≠ 0 →
            runTrace (b :: rest) prev = ([(c, out)], none)
              ∧ invokedCount (b :: rest) prev = 1)
      ∧ (∀ (b : Behavior) (rest : List Behavior) (prev : Option String)
          (out : Option String), b prev = .ok (0, out) →
            runTrace (b :: rest) prev =
                ((0, out) :: (runTrace rest out).1, (runTrace rest out).2)
              ∧ invokedCount (b :: rest) prev = 1 + invokedCount rest out) := by
  refine ⟨?_, invokedCount_of_trace stages none tr h,
    runTrace_len_le stages none tr none h,
    runTrace_dropLast_zero stages none tr none h,
    fun hlt => runTrace_early_stop stages none tr h hlt, ?_, ?_⟩
  · have hloop := executeLoop_of_trace_ok stages 0 none tr h
    rw [Executor.execute, hloop]
    cases htr : tr.getLast? with
    | none => simp
    | some p =>
      obtain ⟨c, o⟩ := p
      simp
  · intro b rest prev c out hb hc
    constructor
    · simp [runTrace, hb, hc]
    · simp [invokedCount, hb, hc]
  · intro b rest prev out hb
    constructor
    · simp [runTrace, hb]
    · simp [invokedCount, hb]

/-- C1 witness: on the concrete three-stage pipeline whose second stage
fails with exit code 2, the executor returns exit code 2, prints that
stage's output `"x"` once, and never invokes the third stage. -/
theorem executor_c1_witness :
    Executor.execute c1Stages = .ok (2, ["x"])
      ∧ invokedCount c1Stages none = 2 := by
  have h := executor_c1_pipeline_spec c1Stages [(0, some "a"), (2, some "x")] (by decide)
  exact ⟨h.1.trans (by rfl), h.2.1.trans (by rfl)⟩

/-- C2: the `exit` built-in never returns a normal result — it raises the
termination signal for every argument list and stdin — and in a pipeline
`a | exit | b` whose first stage completes normally with exit code 0, the
executor propagates the signal (no printing, no exit code) and the third
stage is never invoked (exactly 2 of the 3 stages run). -/
theorem exit_c2_termination_signal :
    (∀ (args : List String) (stdin : Option String),
        ExitCommand.execute args stdin = .error .exitCommand)
      ∧ (∀ (a b : Behavior) (eargs : List String) (out : Option String),
          a none = .ok (0, out) →
            Executor.execute [a, fun stdin => ExitCommand.execute eargs stdin, b] =
                .error .exitCommand
              ∧ invokedCount [a, fun stdin => ExitCommand.execute eargs stdin, b]
                  none = 2) := by
  refine ⟨fun args stdin => rfl, ?_⟩
  intro a b eargs out ha
  constructor
  · simp [Executor.execute, executeLoop, ha, ExitCommand.execute]
  · simp [invokedCount, ha, ExitCommand.execute]

/-- C2 witness: with a concrete first stage that succeeds producing `"s"`,
the pipeline `a | exit | b` raises the termination signal and invokes only
two stages. -/
theorem exit_c2_witness :
    Executor.execute [okStageS, fun stdin => ExitCommand.execute [] stdin, okStageT] =
        .error .exitCommand
      ∧ invokedCount [okStageS, fun stdin => ExitCommand.execute [] stdin, okStageT]
          none = 2 :=
  exit_c2_termination_signal.2 okStageS okStageT [] (some "s") rfl

/-- C3 counterexample: on the input line `"|"` (non-empty, so it passes the
whitespace check) both pipe segments strip to the empty string and are
silently dropped, so `parse` raises no `ParseError` and returns a Pipeline
with zero stages — contradicting both the claimed error on zero-token
segments and the claimed non-emptiness of every returned Pipeline. -/
theorem parse_c3_counterexample :
    Parser.parse envNone "|" = .ok { commands := [] } := by decide

/-- C3 (amended): `parse` raises `ParseError` when the raw line is empty or
whitespace-only; a pipe segment that is empty after trimming is silently
dropped rather than raising `ParseError` (so `"a | | b"` parses to the two
stages `a` and `b`), and consequently a returned Pipeline may have zero
stages (input `"|"`). -/
theorem parse_c3_amended (env : Env) (raw : String)
    (h : (pyStrip raw).isEmpty = true) :
    Parser.parse env raw = .error (.valueError "ParseError: Empty input")
      ∧ Parser.parse envNone "a | | b" =
          .ok { commands := [⟨"a", []⟩, ⟨"b", []⟩] }
      ∧ Parser.parse envNone "|" = .ok { commands := [] } := by
  refine ⟨?_, by decide, by decide⟩
  simp [Parser.parse, h]

/-- C3 witness: the whitespace-only line `"  "` raises the empty-input
`ParseError`. -/
theorem parse_c3_witness :
    Parser.parse envNone "  " = .error (.valueError "ParseError: Empty input") :=
  (parse_c3_amended envNone "  " (by decide)).1

/-- C4 counterexample: with environment `A = "$B"`, `B = "x"`, the value
substituted for `${A}` is re-scanned by the second (`$NAME`) pass, so the
substituted line is `"x"`, not the literal `"$B"` the claim requires. -/
theorem subst_c4_counterexample :
    processSubstitutions envAB "${A}" = "x" ∧ ("x" : String) ≠ "$B" := by
  constructor
  · decide
  · decide

/-- C4 (amended): a value substituted by the `$NAME` pass is emitted
literally and never re-scanned (so `$A` yields the literal `"$B"`, and a
value containing `${OTHER}` also stays literal, `$C` yields `"${B}"`); but
because the `${NAME}` pass runs first over the whole line and the `$NAME`
pass then runs over its output, a value substituted for `${NAME}` that
contains a `$WORD` reference is substituted again (`${A}` yields `"x"`). -/
theorem subst_c4_amended (env : Env) (hA : env "A" = some "$B")
    (hB : env "B" = some "x") (hC : env "C" = some "${B}") :
    processSubstitutions env "$A" = "$B"
      ∧ processSubstitutions env "$C" = "${B}"
      ∧ processSubstitutions env "${A}" = "x" := by
  have hmkA : String.mk ['A'] = "A" := rfl
  have hmkB : String.mk ['B'] = "B" := rfl
  have hmkC : String.mk ['C'] = "C" := rfl
  refine ⟨?_, ?_, ?_⟩ <;>
    simp +decide [processSubstitutions, subBraced, subDollar, subBracedAux,
      subDollarAux, getenvDef, pyIsWordChar, hmkA, hmkB, hmkC, hA, hB, hC]

/-- C4 witness: the amended behavior on the concrete environment
`A = "$B"`, `B = "x"`, `C = "${B}"`. -/
theorem subst_c4_witness :
    processSubstitutions envAB "$A" = "$B"
      ∧ processSubstitutions envAB "$C" = "${B}"
      ∧ processSubstitutions envAB "${A}" = "x" :=
  subst_c4_amended envAB (by decide) (by decide) (by decide)

/-- C5 (code bug): invoking `grep` with no arguments (missing pattern)
makes argparse raise `SystemExit(2)`; the `except ValueError` handler in
`GrepCommand.execute` does not match it, so the fault propagates to the
caller instead of the documented local recovery `(1, None)` — for every
regex engine, stdin, filesystem and process stdin. -/
theorem grep_c5_missing_pattern_bug (search : GrepArgs → String → Bool)
    (stdin : Option String) (fs : FS) (procStdin : String) :
    GrepCommand.execute search [] stdin fs procStdin = .error (.systemExit 2)
      ∧ grepParseArgs [] = .error (.systemExit 2)
      ∧ GrepCommand.execute search [] stdin fs procStdin ≠ .ok (1, none) := by
  have h1 : GrepCommand.execute search [] stdin fs procStdin =
      .error (.systemExit 2) := rfl
  refine ⟨h1, rfl, ?_⟩
  rw [h1]
  decide

/-- C6 counterexample: a child stdout of `"a\n\n"` is normalized by the
code (`rstrip('\n')`) to `"a"`, while stripping exactly one trailing
newline as the claim states would give `"a\n"` — the two disagree. -/
theorem default_c6_counterexample :
    DefaultCommand.execute "ext" (some ⟨0, "a\n\n", ""⟩) =
        { exitCode := 0, output := some "a", diag := [] }
      ∧ specStripOneNl "a\n\n" = "a\n"
      ∧ ("a" : String) ≠ "a\n" := by
  refine ⟨by decide, by decide, by decide⟩

/-- C6 (amended): the external-process fallback returns the child's exit
code, its stdout with *every* trailing newline stripped, and forwards its
stderr likewise normalized when non-empty; the normalization removes
exactly the maximal run of trailing newlines (the result never ends in a
newline and the original is the result followed by some number of
newlines). -/
theorem default_c6_amended (name : String) (child : ChildResult) :
    (DefaultCommand.execute name (some child)).exitCode = child.returncode
      ∧ (DefaultCommand.execute name (some child)).output =
          some (pyRstripNl child.stdout)
      ∧ (DefaultCommand.execute name (some child)).diag =
          (if (pyRstripNl child.stderr).isEmpty then [] else [pyRstripNl child.stderr])
      ∧ (∀ s : String, (pyRstripNl s).toList.getLast? ≠ some '\n'
          ∧ ∃ k, s.toList = (pyRstripNl s).toList ++ List.replicate k '\n') :=
  ⟨rfl, rfl, rfl, fun s => ⟨pyRstripNl_getLast s, pyRstripNl_append s⟩⟩

/-- C7: `wc` on text input reports `len(content.split('\n'))` lines (so a
trailing newline adds one segment, second conjunct), a word count equal to
the number of maximal non-whitespace runs, and the UTF-8 byte length; on a
file it uses the stat size for the byte count; and the pipeline
`echo line1 line2 line3 | wc` prints `1 3 17`. -/
theorem wc_c7_counts (content : String) (fs : FS) (procStdin : String) :
    WcCommand.execute [] (some content) fs procStdin =
        (0, some (toString (pySplitChar '\n' content.toList).length ++ " " ++
          toString (maxRuns content.toList) ++ " " ++ toString (pyUtf8Len content)))
      ∧ (∀ l : List Char,
          (pySplitChar '\n' (l ++ ['\n'])).length = (pySplitChar '\n' l).length + 1)
      ∧ (∀ (f : String) (d : FileData) (stdin : Option String),
          fs f = some d →
            WcCommand.execute [f] stdin fs procStdin =
              (0, some (toString (pySplitChar '\n' d.content.toList).length ++ " " ++
                toString (maxRuns d.content.toList) ++ " " ++ toString d.size)))
      ∧ Executor.execute
            [pureStage (EchoCommand.execute ["line1", "line2", "line3"]),
             pureStage (fun stdin => WcCommand.execute [] stdin fs procStdin)] =
          .ok (0, ["1 3 17"]) := by
  refine ⟨?_, pySplitChar_snoc_sep '\n', ?_, ?_⟩
  · simp [WcCommand.execute, wcFormat, pySplitWs_length_eq_maxRuns]
  · intro f d stdin h
    simp [WcCommand.execute, h, wcFormat, pySplitWs_length_eq_maxRuns]
  · rfl

/-- C7 witness: reading a file containing `line1\nline2\nline3` of stat
size 17 reports `3 3 17`. -/
theorem wc_c7_witness :
    WcCommand.execute ["t"] none fsLines "" = (0, some "3 3 17") := by
  have h := (wc_c7_counts "" fsLines "").2.2.1 "t" ⟨"line1\nline2\nline3", 17⟩ none rfl
  exact h.trans (by decide)

/-- C8: for every matcher, after-context `a` and line list, grep's emission
loop produces exactly the lines whose index satisfies `grepEmit` — the line
matches, or some earlier match lies within distance `a` (the reset, not
additive, counter semantics) — each emitted at most once for its position
and in input order (the result is a sublist of the input); and the final
output is none exactly when no line was emitted (never the empty string
for an empty result). -/
theorem grep_c8_context_emission (m : String → Bool) (a : Nat)
    (lines : List String) :
    GrepCommand.processLines m (a : Int) lines =
        ((List.range lines.length).filter (grepEmit m a lines)).map
          (fun i => lines.getD i "")
      ∧ List.Sublist (GrepCommand.processLines m (a : Int) lines) lines
      ∧ (GrepCommand.outputOf (GrepCommand.processLines m (a : Int) lines) = none ↔
          GrepCommand.processLines m (a : Int) lines = []) := by
  refine ⟨?_, grepProcessAux_sublist m (a : Int) lines 0, ?_⟩
  · have h := grepProcessAux_spec m a lines 0
    rw [show ((0 : Nat) : Int) = (0 : Int) from rfl] at h
    rw [GrepCommand.processLines, h]
    apply congrArg
    apply List.filter_congr
    intro i _
    exact grepEmitAux_zero m a lines i
  · cases hres : GrepCommand.processLines m (a : Int) lines with
    | nil => simp [GrepCommand.outputOf]
    | cons x xs => simp [GrepCommand.outputOf]

/-- C9: round-trip — echo with stdin none returns the space-joined
arguments with exit 0, cat with no args and stdin present returns that
stdin unchanged with exit 0, and the executor runs the pipeline
`echo X | cat` to exit 0 printing exactly the joined tokens. -/
theorem echo_cat_c9_roundtrip (X : List String) (fs : FS) (procStdin : String) :
    EchoCommand.execute X none = (0, some (String.intercalate " " X))
      ∧ (∀ s : String, CatCommand.execute [] (some s) fs procStdin = (0, some s))
      ∧ Executor.execute
            [pureStage (EchoCommand.execute X),
             pureStage (fun stdin => CatCommand.execute [] stdin fs procStdin)] =
          .ok (0, [String.intercalate " " X]) :=
  ⟨rfl, fun _ => rfl, rfl⟩

/-- C10: with a present but empty piped stdin and no file argument, grep's
input reader falls back to the real process stdin (Python truthiness),
while a non-empty piped stdin is used directly; `cat` and `wc` instead
test `stdin is not None` and consume the empty string — cat returns it
unchanged, wc counts it as `1 0 0`. -/
theorem grep_c10_stdin_truthiness (args : List String) (ga : GrepArgs)
    (fs : FS) (procStdin : String) (hpa : grepParseArgs args = .ok ga)
    (hf : ga.file = none) :
    GrepCommand.readInput args (some "") fs procStdin = .ok (pySplitlines procStdin)
      ∧ (∀ s : String, s ≠ "" →
          GrepCommand.readInput args (some s) fs procStdin = .ok (pySplitlines s))
      ∧ CatCommand.execute [] (some "") fs procStdin = (0, some "")
      ∧ WcCommand.execute [] (some "") fs procStdin = (0, some "1 0 0") := by
  refine ⟨?_, ?_, rfl, rfl⟩
  · simp +decide [GrepCommand.readInput, hpa, hf, pyTruthy]
  · intro s hs
    have hne : s.isEmpty = false := by
      cases hh : s.isEmpty
      · rfl
      · exact absurd ((String.isEmpty_iff s).mp hh) hs
    simp [GrepCommand.readInput, hpa, hf, pyTruthy, hne]

/-- C10 witness: with pattern `"p"`, empty piped stdin and process stdin
`"x\ny"`, grep reads the process stdin's two lines; with piped stdin
`"z"` it reads that single line. -/
theorem grep_c10_witness :
    GrepCommand.readInput ["p"] (some "") fsEmpty "x\ny" = .ok (pySplitlines "x\ny")
      ∧ GrepCommand.readInput ["p"] (some "z") fsEmpty "x\ny" = .ok (pySplitlines "z") := by
  have h := grep_c10_stdin_truthiness ["p"] ⟨false, false, 0, "p", none⟩
    fsEmpty "x\ny" (by decide) rfl
  exact ⟨h.1, h.2.1 "z" (by decide)⟩
